import Mathlib

/-
A shallow embedding of the columnar data store in `src/lib.rs` (the `db` crate),
together with proofs settling the specification claims about it.

Modelling conventions:
* Rust `i32` values are Lean `Int`s; `parseI32` reproduces `str::parse::<i32>`,
  including the signed 32-bit range check.
* Rust `f64` values are modelled opaquely by `F64`, a wrapper around the source
  text that parsed to them; `parseF64` reproduces the accepting grammar of
  `str::parse::<f64>`.  No claim depends on floating-point arithmetic or on
  equality of floats obtained from distinct literals, so this opaque model is
  adequate.
* `BTreeMap<K, usize>` is modelled as a key-sorted association list; insertion
  overwrites the binding of an existing key, as `BTreeMap::insert` does.
* `HashMap<String, ColumnData>` (the `rows` field of `Table`) is modelled as an
  association list; the code never iterates it, so ordering is irrelevant.
* A Rust panic (`unwrap` on a failed parse, out-of-bounds `Vec` indexing) is
  modelled by `Option.none` for read-only operations and by `RunResult.crash`
  for mutating ones.
* The `path`/`file` fields of `Database` belong to the persistence boundary
  (std `File` plus the external `bincode` crate); they are modelled separately
  by `flushContents` / `newTables` below.
-/

namespace Db

/-- The error enum of the crate. The `std::io::Error` payload of `FileError`
carries no information used by any claim and is dropped. -/
inductive Error where
  | NotFound
  | FileError
  | TableAlreadyExists
  | InvalidColumn
  | InvalidTable
  | InvalidIndex
  | Unknown
deriving DecidableEq, Repr

/-- `DataType`: the closed set of column types. -/
inductive DataType where
  | int
  | float
  | str
deriving DecidableEq, Repr

/-- Opaque model of a Rust `f64` produced by parsing; `lit` is the source text. -/
structure F64 where
  lit : String
deriving DecidableEq, Repr

/-- `ResultDT`: the tagged value returned by point lookups. -/
inductive ResultDT where
  | int : Int → ResultDT
  | float : F64 → ResultDT
  | str : String → ResultDT
  | none
deriving DecidableEq, Repr

/-- Model of `str::parse::<i32>`: optional sign, one or more ASCII digits,
value within the signed 32-bit range. -/
def parseI32 (s : String) : Option Int :=
  match s.toList with
  | [] => Option.none
  | c :: rest =>
    let (neg, digits) :=
      if c = '-' then (true, rest)
      else if c = '+' then (false, rest)
      else (false, c :: rest)
    if digits.isEmpty then Option.none
    else if digits.all Char.isDigit then
      let n : Nat := digits.foldl (fun acc d => acc * 10 + (d.toNat - 48)) 0
      let v : Int := if neg then -(n : Int) else (n : Int)
      if -(2 ^ 31) ≤ v ∧ v < 2 ^ 31 then some v else Option.none
    else Option.none

/-- One or more ASCII digits. -/
def allDigits (cs : List Char) : Bool :=
  !cs.isEmpty && cs.all Char.isDigit

/-- The mantissa grammar of `str::parse::<f64>`:
`Digit+ | Digit+ '.' Digit* | Digit* '.' Digit+`. -/
def mantOk (cs : List Char) : Bool :=
  match cs.splitOn '.' with
  | [a] => allDigits a
  | [a, b] => a.all Char.isDigit && b.all Char.isDigit && (!a.isEmpty || !b.isEmpty)
  | _ => false

/-- A number with an optional decimal exponent, per the `f64` grammar
(input is already lowercased). -/
def numOk (cs : List Char) : Bool :=
  match cs.splitOn 'e' with
  | [m] => mantOk m
  | [m, e] =>
    mantOk m &&
      (match e with
       | [] => false
       | c :: rest => if c = '+' || c = '-' then allDigits rest else allDigits (c :: rest))
  | _ => false

/-- Recognizer for the accepting grammar of `str::parse::<f64>`:
`Sign? (inf | infinity | nan | Number)`, case-insensitive. -/
def isF64Lit (s : String) : Bool :=
  let cs := s.toLower.toList
  let body :=
    match cs with
    | '+' :: rest => rest
    | '-' :: rest => rest
    | other => other
  body = ['i', 'n', 'f'] ||
    body = ['i', 'n', 'f', 'i', 'n', 'i', 't', 'y'] ||
    body = ['n', 'a', 'n'] ||
    numOk body

/-- Model of `str::parse::<f64>` under the opaque float model. -/
def parseF64 (s : String) : Option F64 :=
  if isF64Lit s then some ⟨s⟩ else Option.none

/-- Insertion into a key-sorted association list, the model of
`BTreeMap<i32, usize>::insert`: overwrites an existing key's binding. -/
def btInsertI (k : Int) (v : Nat) : List (Int × Nat) → List (Int × Nat)
  | [] => [(k, v)]
  | (k', v') :: rest =>
    if k < k' then (k, v) :: (k', v') :: rest
    else if k = k' then (k, v) :: rest
    else (k', v') :: btInsertI k v rest

/-- Lookup in the model of `BTreeMap<i32, usize>`. -/
def btGetI (k : Int) : List (Int × Nat) → Option Nat
  | [] => Option.none
  | (k', v') :: rest => if k = k' then some v' else btGetI k rest

/-- Insertion into the model of `BTreeMap<String, usize>`. -/
def btInsertS (k : String) (v : Nat) : List (String × Nat) → List (String × Nat)
  | [] => [(k, v)]
  | (k', v') :: rest =>
    if k < k' then (k, v) :: (k', v') :: rest
    else if k = k' then (k, v) :: rest
    else (k', v') :: btInsertS k v rest

/-- Lookup in the model of `BTreeMap<String, usize>`. -/
def btGetS (k : String) : List (String × Nat) → Option Nat
  | [] => Option.none
  | (k', v') :: rest => if k = k' then some v' else btGetS k rest

/-- `Index`: a per-column mapping from value to row position. -/
inductive Index where
  | int : List (Int × Nat) → Index
  | str : List (String × Nat) → Index
  | none
deriving DecidableEq, Repr

/-- `Index::get`: on an integer index the key text is parsed as `i32` first. -/
def Index.get (i : Index) (val : String) : Except Error (Option Nat) :=
  match i with
  | Index.int m =>
    match parseI32 val with
    | some n => Except.ok (btGetI n m)
    | Option.none => Except.error Error.InvalidIndex
  | Index.str m => Except.ok (btGetS val m)
  | Index.none => Except.ok Option.none

/-- `Column`: a named, typed column descriptor carrying an index. -/
structure Column where
  name : String
  kind : DataType
  index : Index
  is_indexed : Bool
deriving DecidableEq, Repr

/-- `Column::new`: note that the index variant is chosen from `kind` alone
(`Int`/`Str` get an empty typed index, anything else `Index::None`); the
`is_indexed` flag is stored but never consulted. -/
def Column.new (name : String) (kind : DataType) (flag : Bool) : Column :=
  { name := name
    kind := kind
    index :=
      match kind with
      | DataType.int => Index.int []
      | DataType.str => Index.str []
      | _ => Index.none
    is_indexed := flag }

/-- `ColumnData`: the type-tagged vector of values for one column. -/
inductive ColumnData where
  | int : List Int → ColumnData
  | float : List F64 → ColumnData
  | str : List String → ColumnData
deriving DecidableEq, Repr

/-- `ColumnData::size`. -/
def ColumnData.size : ColumnData → Nat
  | ColumnData.int xs => xs.length
  | ColumnData.float xs => xs.length
  | ColumnData.str xs => xs.length

/-- `ColumnData::get_from_idx`; the unguarded `vec[idx]` of the source panics
when `idx` is out of bounds, modelled by `Option.none`. -/
def ColumnData.get_from_idx : ColumnData → Nat → Option ResultDT
  | ColumnData.int xs, idx => (xs.get? idx).map ResultDT.int
  | ColumnData.float xs, idx => (xs.get? idx).map ResultDT.float
  | ColumnData.str xs, idx => (xs.get? idx).map ResultDT.str

/-- Does the store's variant match a column kind? -/
def ColumnData.matchesKind : ColumnData → DataType → Bool
  | ColumnData.int _, DataType.int => true
  | ColumnData.float _, DataType.float => true
  | ColumnData.str _, DataType.str => true
  | _, _ => false

/-- The model of `HashMap<String, ColumnData>`. -/
abbrev Rows := List (String × ColumnData)

/-- `HashMap::get` on the rows map. -/
def rowsGet (m : Rows) (k : String) : Option ColumnData :=
  match m with
  | [] => Option.none
  | (k', r) :: rest => if k' = k then some r else rowsGet rest k

/-- In-place mutation through `HashMap::get_mut`: replace the binding of an
existing key, leave the map unchanged if the key is absent. -/
def rowsSet (m : Rows) (k : String) (r : ColumnData) : Rows :=
  match m with
  | [] => []
  | (k', r') :: rest => if k' = k then (k', r) :: rest else (k', r') :: rowsSet rest k r

/-- `HashMap::insert`: overwrite an existing binding or append a new one. -/
def rowsInsert (m : Rows) (k : String) (r : ColumnData) : Rows :=
  if (rowsGet m k).isSome then rowsSet m k r else m ++ [(k, r)]

/-- `Table`: name, ordered column schemas, and the per-column stores. -/
structure Table where
  name : String
  cols : List Column
  rows : Rows
deriving DecidableEq, Repr

/-- The empty store of a given kind, as built by `Table::new`. -/
def emptyStore : DataType → ColumnData
  | DataType.int => ColumnData.int []
  | DataType.float => ColumnData.float []
  | DataType.str => ColumnData.str []

/-- `Table::new`: an empty store of the matching variant for each column. -/
def Table.new (name : String) (cols : List Column) : Table :=
  { name := name
    cols := cols
    rows := cols.foldl (fun m col => rowsInsert m col.name (emptyStore col.kind)) [] }

/-- `Database`: the in-memory table list.  The `path` and `file` fields of the
Rust struct belong to the persistence boundary modelled by
`flushContents` / `newTables`. -/
structure Database where
  tables : List Table
deriving DecidableEq, Repr

/-- Outcome of a mutating operation: normal return, `Err` return (carrying the
possibly partially-mutated state, as the Rust `&mut self` does), or a panic. -/
inductive RunResult (α : Type) where
  | ok : α → RunResult α
  | err : Error → α → RunResult α
  | crash
deriving DecidableEq, Repr

/-- `Database::get_table`: linear scan by name. -/
def Database.get_table (db : Database) (tname : String) : Option Table :=
  db.tables.find? (fun t => t.name == tname)

/-- One value-append into one column, the body of the `if let Some(row)`
block of `Database::insert`: convert the text to the column's kind (a failed
parse is the source's `unwrap` panic, modelled by `none`), push onto the store
if its variant matches, and update a typed index if one is present.  When the
rows map has no entry for the column the source silently does nothing. -/
def applyValue (col : Column) (v : String) (rows : Rows) : Option (Column × Rows) :=
  match rowsGet rows col.name with
  | Option.none => some (col, rows)
  | some row =>
    let size := row.size
    match col.kind with
    | DataType.int =>
      match parseI32 v with
      | Option.none => Option.none
      | some n =>
        let row' : ColumnData :=
          match row with
          | ColumnData.int xs => ColumnData.int (xs ++ [n])
          | r => r
        let col' : Column :=
          match col.index with
          | Index.int m => { col with index := Index.int (btInsertI n size m) }
          | _ => col
        some (col', rowsSet rows col.name row')
    | DataType.float =>
      match parseF64 v with
      | Option.none => Option.none
      | some x =>
        let row' : ColumnData :=
          match row with
          | ColumnData.float xs => ColumnData.float (xs ++ [x])
          | r => r
        some (col, rowsSet rows col.name row')
    | DataType.str =>
      let row' : ColumnData :=
        match row with
        | ColumnData.str xs => ColumnData.str (xs ++ [v])
        | r => r
      let col' : Column :=
        match col.index with
        | Index.str m => { col with index := Index.str (btInsertS v size m) }
        | _ => col
      some (col', rowsSet rows col.name row')

/-- Find the first column named `c` (the `iter_mut().find()` of the source),
apply the value to it, and rebuild the column list.  Outer `none` is a panic;
inner `none` means no column of that name exists (`InvalidColumn`). -/
def insertIntoCols (v c : String) (rows : Rows) :
    List Column → Option (Option (List Column × Rows))
  | [] => some Option.none
  | col :: rest =>
    if col.name = c then
      match applyValue col v rows with
      | Option.none => Option.none
      | some (col', rows') => some (some (col' :: rest, rows'))
    else
      match insertIntoCols v c rows rest with
      | Option.none => Option.none
      | some Option.none => some Option.none
      | some (some (rest', rows')) => some (some (col :: rest', rows'))

/-- The per-pair loop of `Database::insert` over one table.  On an unknown
column name the loop returns `Err(InvalidColumn)` immediately, keeping the
mutations already applied by earlier pairs. -/
def insertPairs : List (String × String) → Table → RunResult Table
  | [], t => RunResult.ok t
  | (c, v) :: rest, t =>
    match insertIntoCols v c t.rows t.cols with
    | Option.none => RunResult.crash
    | some Option.none => RunResult.err Error.InvalidColumn t
    | some (some (cols', rows')) =>
      insertPairs rest { t with cols := cols', rows := rows' }

/-- Locate the first table of the given name (`get_table_mut`) and run the
pair loop on it in place; `none` means no such table. -/
def insertGo (pairs : List (String × String)) (tname : String) :
    List Table → Option (RunResult (List Table))
  | [] => Option.none
  | t :: ts =>
    if t.name = tname then
      some
        (match insertPairs pairs t with
         | RunResult.ok t' => RunResult.ok (t' :: ts)
         | RunResult.err e t' => RunResult.err e (t' :: ts)
         | RunResult.crash => RunResult.crash)
    else
      match insertGo pairs tname ts with
      | Option.none => Option.none
      | some (RunResult.ok ts') => some (RunResult.ok (t :: ts'))
      | some (RunResult.err e ts') => some (RunResult.err e (t :: ts'))
      | some RunResult.crash => some RunResult.crash

/-- `Database::insert`.  The source iterates
`(0..cols.len()).zip(cols).zip(values)`, i.e. the positional pairing of
`cols` with `values`, truncated to the shorter of the two. -/
def Database.insert (db : Database) (cols : List String) (values : List String)
    (table : String) : RunResult Database :=
  match insertGo (cols.zip values) table db.tables with
  | Option.none => RunResult.err Error.InvalidTable db
  | some (RunResult.ok ts) => RunResult.ok ⟨ts⟩
  | some (RunResult.err e ts) => RunResult.err e ⟨ts⟩
  | some RunResult.crash => RunResult.crash

/-- The column loop of `Database::search_idx`: absent names are skipped,
present ones are read at `idx` (an out-of-bounds read panics: `none`). -/
def searchList (t : Table) (idx : Nat) : List String → Option (List ResultDT)
  | [] => some []
  | c :: rest =>
    match rowsGet t.rows c with
    | Option.none => searchList t idx rest
    | some row =>
      match row.get_from_idx idx with
      | Option.none => Option.none
      | some v => (searchList t idx rest).map (fun vs => v :: vs)

/-- `Database::search_idx`. -/
def Database.search_idx (db : Database) (s_col : List String) (idx : Nat)
    (tname : String) : Option (Except Error (List ResultDT)) :=
  match db.get_table tname with
  | Option.none => some (Except.error Error.InvalidTable)
  | some t => (searchList t idx s_col).map Except.ok

/-! ### Derived observations used in claim statements -/

/-- The kind of the first column of a given name, if any
(`table.cols.iter().find(|c| c.name == col)` followed by `.kind`). -/
def findColKind (t : Table) (c : String) : Option DataType :=
  (t.cols.find? (fun x => x.name == c)).map Column.kind

/-- Does the text convert to the given kind without the source's `unwrap`
panicking? -/
def convertsOkB (k : DataType) (v : String) : Bool :=
  match k with
  | DataType.int => (parseI32 v).isSome
  | DataType.float => (parseF64 v).isSome
  | DataType.str => true

/-- The value converts to its column's declared type (vacuously true when the
column does not exist, since the conversion is then never attempted). -/
def convAt (t : Table) (c v : String) : Bool :=
  match findColKind t c with
  | some k => convertsOkB k v
  | Option.none => true

/-- The column exists in the schema and its store is present in the rows map. -/
def wfAt (t : Table) (c : String) : Bool :=
  (findColKind t c).isSome && (rowsGet t.rows c).isSome

/-- A pair can be processed without error or panic: its column exists and,
when the store is present, the value converts. -/
def okAt (t : Table) (c v : String) : Bool :=
  match findColKind t c with
  | some k => !(rowsGet t.rows c).isSome || convertsOkB k v
  | Option.none => false

/-- A fully well-behaved pair over a store of length `L`: column present,
store present with the matching variant and length `L`, value converts. -/
def goodPair (t : Table) (L : Nat) (c v : String) : Bool :=
  match findColKind t c, rowsGet t.rows c with
  | some k, some row => row.matchesKind k && convertsOkB k v && (row.size == L)
  | _, _ => false

/-- The store after one append of the converted value (a no-op on a variant
mismatch, exactly as the source's `if let` push is). -/
def pushConv (k : DataType) (v : String) (row : ColumnData) : ColumnData :=
  match k, row with
  | DataType.int, ColumnData.int xs =>
    (match parseI32 v with
     | some n => ColumnData.int (xs ++ [n])
     | _ => ColumnData.int xs)
  | DataType.float, ColumnData.float xs =>
    (match parseF64 v with
     | some x => ColumnData.float (xs ++ [x])
     | _ => ColumnData.float xs)
  | DataType.str, ColumnData.str xs => ColumnData.str (xs ++ [v])
  | _, r => r

/-- The column after one insertion, with a typed index updated when one is
present (keyed by the converted value, mapped to `size`). -/
def indexUpdated (col : Column) (v : String) (size : Nat) : Column :=
  match col.kind with
  | DataType.int =>
    (match parseI32 v, col.index with
     | some n, Index.int m => { col with index := Index.int (btInsertI n size m) }
     | _, _ => col)
  | DataType.float => col
  | DataType.str =>
    (match col.index with
     | Index.str m => { col with index := Index.str (btInsertS v size m) }
     | _ => col)

/-- What a pair's store should look like after its append. -/
def expectedRowAfter (t : Table) (c v : String) : Option ColumnData :=
  match findColKind t c, rowsGet t.rows c with
  | some k, some row => some (pushConv k v row)
  | _, _ => Option.none

/-- The declared kind of a column, defaulting to `Str` (only used where a
hypothesis guarantees the column exists). -/
def kindAt (t : Table) (c : String) : DataType :=
  (findColKind t c).getD DataType.str

/-- The tagged value `search_idx` returns for a freshly inserted text. -/
def convertVal (k : DataType) (v : String) : ResultDT :=
  match k with
  | DataType.int =>
    (match parseI32 v with
     | some n => ResultDT.int n
     | _ => ResultDT.none)
  | DataType.float =>
    (match parseF64 v with
     | some x => ResultDT.float x
     | _ => ResultDT.none)
  | DataType.str => ResultDT.str v

/-- Position `idx` is readable for column `c` (vacuously when absent). -/
def inBounds (t : Table) (idx : Nat) (c : String) : Bool :=
  match rowsGet t.rows c with
  | some row => decide (idx < row.size)
  | Option.none => true

/-- Replace the first column of the given name (the effect of mutating through
`iter_mut().find()`). -/
def replaceFirstCol : List Column → String → Column → List Column
  | [], _, _ => []
  | col :: rest, c, newCol =>
    if col.name = c then newCol :: rest else col :: replaceFirstCol rest c newCol

/-- The (name, kind) signature of a column list; insertion never changes it. -/
def colSig (cs : List Column) : List (String × DataType) :=
  cs.map (fun x => (x.name, x.kind))

/-! ### The persistence boundary (claim C3)

The backing file and its binary format live outside the repository (std
`File`, the `bincode` crate).  Per the spec, any deterministic serialization
works as long as it round-trips the data model; `Blob` is such an encoding. -/

/-- A serialized value: the deterministic encoding target. -/
inductive Blob where
  | nat : Nat → Blob
  | int : Int → Blob
  | str : String → Blob
  | list : List Blob → Blob

/-- Decode a list elementwise, failing if any element fails. -/
def decList {α : Type} (g : Blob → Option α) : List Blob → Option (List α)
  | [] => some []
  | b :: bs =>
    match g b with
    | Option.none => Option.none
    | some a => (decList g bs).map (fun as => a :: as)

def encF64 (x : F64) : Blob := Blob.str x.lit

def decF64 (b : Blob) : Option F64 :=
  match b with
  | Blob.str s => some ⟨s⟩
  | _ => Option.none

def encDataType : DataType → Blob
  | DataType.int => Blob.nat 0
  | DataType.float => Blob.nat 1
  | DataType.str => Blob.nat 2

def decDataType : Blob → Option DataType
  | Blob.nat 0 => some DataType.int
  | Blob.nat 1 => some DataType.float
  | Blob.nat 2 => some DataType.str
  | _ => Option.none

def encIPair (p : Int × Nat) : Blob := Blob.list [Blob.int p.1, Blob.nat p.2]

def decIPair : Blob → Option (Int × Nat)
  | Blob.list [Blob.int k, Blob.nat v] => some (k, v)
  | _ => Option.none

def encSPair (p : String × Nat) : Blob := Blob.list [Blob.str p.1, Blob.nat p.2]

def decSPair : Blob → Option (String × Nat)
  | Blob.list [Blob.str k, Blob.nat v] => some (k, v)
  | _ => Option.none

def encIndex : Index → Blob
  | Index.int m => Blob.list [Blob.nat 0, Blob.list (m.map encIPair)]
  | Index.str m => Blob.list [Blob.nat 1, Blob.list (m.map encSPair)]
  | Index.none => Blob.list [Blob.nat 2]

def decIndex : Blob → Option Index
  | Blob.list [Blob.nat 0, Blob.list bs] => (decList decIPair bs).map Index.int
  | Blob.list [Blob.nat 1, Blob.list bs] => (decList decSPair bs).map Index.str
  | Blob.list [Blob.nat 2] => some Index.none
  | _ => Option.none

def encBool (b : Bool) : Blob := Blob.nat (cond b 1 0)

def decBool : Blob → Option Bool
  | Blob.nat 0 => some false
  | Blob.nat 1 => some true
  | _ => Option.none

def encColumn (c : Column) : Blob :=
  Blob.list [Blob.str c.name, encDataType c.kind, encIndex c.index, encBool c.is_indexed]

def decColumn : Blob → Option Column
  | Blob.list [n, k, i, f] =>
    (match decDataType k, decIndex i, decBool f with
     | some kind, some index, some flag =>
       (match n with
        | Blob.str name => some ⟨name, kind, index, flag⟩
        | _ => Option.none)
     | _, _, _ => Option.none)
  | _ => Option.none

def encColumnData : ColumnData → Blob
  | ColumnData.int xs => Blob.list [Blob.nat 0, Blob.list (xs.map Blob.int)]
  | ColumnData.float xs => Blob.list [Blob.nat 1, Blob.list (xs.map encF64)]
  | ColumnData.str xs => Blob.list [Blob.nat 2, Blob.list (xs.map Blob.str)]

def decInt : Blob → Option Int
  | Blob.int n => some n
  | _ => Option.none

def decStr : Blob → Option String
  | Blob.str s => some s
  | _ => Option.none

def decColumnData : Blob → Option ColumnData
  | Blob.list [Blob.nat 0, Blob.list bs] => (decList decInt bs).map ColumnData.int
  | Blob.list [Blob.nat 1, Blob.list bs] => (decList decF64 bs).map ColumnData.float
  | Blob.list [Blob.nat 2, Blob.list bs] => (decList decStr bs).map ColumnData.str
  | _ => Option.none

def encRowPair (p : String × ColumnData) : Blob :=
  Blob.list [Blob.str p.1, encColumnData p.2]

def decRowPair : Blob → Option (String × ColumnData)
  | Blob.list [Blob.str k, r] => (decColumnData r).map (fun row => (k, row))
  | _ => Option.none

def encTable (t : Table) : Blob :=
  Blob.list [Blob.str t.name, Blob.list (t.cols.map encColumn),
    Blob.list (t.rows.map encRowPair)]

def decTable : Blob → Option Table
  | Blob.list [Blob.str n, Blob.list cs, Blob.list rs] =>
    (match decList decColumn cs, decList decRowPair rs with
     | some cols, some rows => some ⟨n, cols, rows⟩
     | _, _ => Option.none)
  | _ => Option.none

def encTables (ts : List Table) : Blob := Blob.list (ts.map encTable)

def decTables : Blob → Option (List Table)
  | Blob.list bs => decList decTable bs
  | _ => Option.none

/-- Modelled from the spec: the backing file's contents after
`Database::flush`, which "serializes the entire current table list in one
pass and overwrites the backing file's contents".  The binary format
(`bincode`) and the file handle are external to the repository; per the spec
any faithful deterministic serialization may stand in for it. -/
def flushContents (tables : List Table) : Blob := encTables tables

/-- Modelled from the spec: the table list `Database::new` reconstructs from
the file at its path. "If a file exists at `path`, read it fully and
deserialize it as the complete ordered list of Tables; any deserialization
failure is fatal" (the fatal load error is `none`); "if no file exists, start
with an empty table list". -/
def newTables (file : Option Blob) : Option (List Table) :=
  match file with
  | Option.none => some []
  | some b => decTables b

/-! ### Concrete fixtures (the tables of the crate's own tests) -/

/-- The `people` table of the crate's tests, freshly created. -/
def peopleTable : Table :=
  Table.new "people"
    [Column.new "name" DataType.str true, Column.new "age" DataType.int false]

/-- A database holding the fresh `people` table. -/
def peopleDb : Database := ⟨[peopleTable]⟩

/-- The `people` table after inserting `("name" -> "Tommy", "age" -> "16")`. -/
def peopleFullT : Table :=
  { name := "people"
    cols :=
      [{ name := "name", kind := DataType.str, index := Index.str [("Tommy", 0)],
         is_indexed := true },
       { name := "age", kind := DataType.int, index := Index.int [(16, 0)],
         is_indexed := false }]
    rows := [("name", ColumnData.str ["Tommy"]), ("age", ColumnData.int [16])] }

/-- The database after that insert. -/
def peopleFull : Database := ⟨[peopleFullT]⟩

/-- The partially mutated state `insert` leaves behind when the second column
name of the batch is invalid: `name` already has one value, `age` none. -/
def peopleAfterPartial : Database :=
  ⟨[{ name := "people"
      cols :=
        [{ name := "name", kind := DataType.str, index := Index.str [("Tommy", 0)],
           is_indexed := true },
         { name := "age", kind := DataType.int, index := Index.int [],
           is_indexed := false }]
      rows := [("name", ColumnData.str ["Tommy"]), ("age", ColumnData.int [])] }]⟩

deriving instance DecidableEq for Except

/-! ## Lemmas about the rows map -/

theorem rowsGet_rowsSet_self (m : Rows) (k : String) (r : ColumnData)
    (h : (rowsGet m k).isSome = true) : rowsGet (rowsSet m k r) k = some r := by
  induction m with
  | nil => simp [rowsGet] at h
  | cons p rest ih =>
    obtain ⟨k', r'⟩ := p
    by_cases hk : k' = k
    · simp [rowsGet, rowsSet, hk]
    · simp [rowsGet, rowsSet, hk] at h ⊢
      exact ih h

theorem rowsGet_rowsSet_ne (m : Rows) {k c : String} (r : ColumnData) (h : c ≠ k) :
    rowsGet (rowsSet m k r) c = rowsGet m c := by
  induction m with
  | nil => rfl
  | cons p rest ih =>
    obtain ⟨k', r'⟩ := p
    by_cases hk : k' = k
    · subst hk
      have hkc : k' ≠ c := fun hh => h hh.symm
      simp [rowsGet, rowsSet, hkc]
    · by_cases hc : k' = c
      · subst hc
        simp [rowsGet, rowsSet, hk]
      · simp [rowsGet, rowsSet, hk, hc, ih]

theorem rowsSet_keys (m : Rows) (k : String) (r : ColumnData) :
    (rowsSet m k r).map Prod.fst = m.map Prod.fst := by
  induction m with
  | nil => rfl
  | cons p rest ih =>
    obtain ⟨k', r'⟩ := p
    by_cases hk : k' = k
    · simp [rowsSet, hk]
    · simp [rowsSet, hk, ih]

theorem rowsGet_isSome_iff (m : Rows) (k : String) :
    (rowsGet m k).isSome = true ↔ k ∈ m.map Prod.fst := by
  induction m with
  | nil => simp [rowsGet]
  | cons p rest ih =>
    obtain ⟨k', r'⟩ := p
    by_cases hk : k' = k
    · simp [rowsGet, hk]
    · simp [rowsGet, hk, ih, Ne.symm hk]

theorem rowsGet_of_mem_nodup (m : Rows) (k : String) (r : ColumnData)
    (hnd : (m.map Prod.fst).Nodup) (hm : (k, r) ∈ m) : rowsGet m k = some r := by
  induction m with
  | nil => cases hm
  | cons p rest ih =>
    obtain ⟨k', r'⟩ := p
    simp only [List.map_cons, List.nodup_cons] at hnd
    rcases List.mem_cons.mp hm with heq | hmem
    · cases heq
      simp [rowsGet]
    · by_cases hk : k' = k
      · exfalso
        apply hnd.1
        subst hk
        exact List.mem_map.mpr ⟨(k', r), hmem, rfl⟩
      · simp only [rowsGet, hk, if_false]
        exact ih hnd.2 hmem

/-! ## Lemmas about the sorted index maps -/

theorem btGetI_insert_self (k : Int) (v : Nat) (m : List (Int × Nat)) :
    btGetI k (btInsertI k v m) = some v := by
  induction m with
  | nil => simp [btInsertI, btGetI]
  | cons p rest ih =>
    obtain ⟨k', v'⟩ := p
    by_cases h1 : k < k'
    · simp [btInsertI, h1, btGetI]
    · by_cases h2 : k = k'
      · simp [btInsertI, h1, h2, btGetI]
      · simp [btInsertI, h1, h2, btGetI, ih]

theorem btGetI_insert_ne (k2 k : Int) (v : Nat) (m : List (Int × Nat)) (h : k2 ≠ k) :
    btGetI k2 (btInsertI k v m) = btGetI k2 m := by
  induction m with
  | nil => simp [btInsertI, btGetI, h]
  | cons p rest ih =>
    obtain ⟨k', v'⟩ := p
    by_cases h1 : k < k'
    · simp [btInsertI, h1, btGetI, h]
    · by_cases h2 : k = k'
      · subst h2
        simp [btInsertI, h1, btGetI, h]
      · simp [btInsertI, h1, h2, btGetI, ih]

theorem btGetS_insert_self (k : String) (v : Nat) (m : List (String × Nat)) :
    btGetS k (btInsertS k v m) = some v := by
  induction m with
  | nil => simp [btInsertS, btGetS]
  | cons p rest ih =>
    obtain ⟨k', v'⟩ := p
    by_cases h1 : k < k'
    · simp [btInsertS, h1, btGetS]
    · by_cases h2 : k = k'
      · simp [btInsertS, h1, h2, btGetS]
      · simp [btInsertS, h1, h2, btGetS, ih]

theorem btGetS_insert_ne (k2 k : String) (v : Nat) (m : List (String × Nat)) (h : k2 ≠ k) :
    btGetS k2 (btInsertS k v m) = btGetS k2 m := by
  induction m with
  | nil => simp [btInsertS, btGetS, h]
  | cons p rest ih =>
    obtain ⟨k', v'⟩ := p
    by_cases h1 : k < k'
    · simp [btInsertS, h1, btGetS, h]
    · by_cases h2 : k = k'
      · subst h2
        simp [btInsertS, h1, btGetS, h]
      · simp [btInsertS, h1, h2, btGetS, ih]

/-! ## Round-trip of the serialization model -/

theorem decList_enc {α : Type} (g : Blob → Option α) (f : α → Blob)
    (h : ∀ a, g (f a) = some a) : ∀ xs : List α, decList g (xs.map f) = some xs
  | [] => rfl
  | x :: xs => by simp [decList, h x, decList_enc g f h xs]

theorem decF64_enc (x : F64) : decF64 (encF64 x) = some x := by
  cases x
  rfl

theorem decDataType_enc (k : DataType) : decDataType (encDataType k) = some k := by
  cases k <;> rfl

theorem decIPair_enc (p : Int × Nat) : decIPair (encIPair p) = some p := by
  cases p
  rfl

theorem decSPair_enc (p : String × Nat) : decSPair (encSPair p) = some p := by
  cases p
  rfl

theorem decIndex_enc (i : Index) : decIndex (encIndex i) = some i := by
  cases i with
  | int m => simp [encIndex, decIndex, decList_enc decIPair encIPair decIPair_enc]
  | str m => simp [encIndex, decIndex, decList_enc decSPair encSPair decSPair_enc]
  | none => rfl

theorem decBool_enc (b : Bool) : decBool (encBool b) = some b := by
  cases b <;> rfl

theorem decColumn_enc (c : Column) : decColumn (encColumn c) = some c := by
  obtain ⟨n, k, i, f⟩ := c
  simp [encColumn, decColumn, decDataType_enc, decIndex_enc, decBool_enc]

theorem decColumnData_enc (r : ColumnData) : decColumnData (encColumnData r) = some r := by
  cases r with
  | int xs => simp [encColumnData, decColumnData, decList_enc decInt Blob.int (fun _ => rfl)]
  | float xs => simp [encColumnData, decColumnData, decList_enc decF64 encF64 decF64_enc]
  | str xs => simp [encColumnData, decColumnData, decList_enc decStr Blob.str (fun _ => rfl)]

theorem decRowPair_enc (p : String × ColumnData) : decRowPair (encRowPair p) = some p := by
  obtain ⟨k, r⟩ := p
  simp [encRowPair, decRowPair, decColumnData_enc]

theorem decTable_enc (t : Table) : decTable (encTable t) = some t := by
  obtain ⟨n, cs, rs⟩ := t
  simp [encTable, decTable, decList_enc decColumn encColumn decColumn_enc,
    decList_enc decRowPair encRowPair decRowPair_enc]

theorem decTables_enc (ts : List Table) : decTables (encTables ts) = some ts := by
  simp [encTables, decTables, decList_enc decTable encTable decTable_enc]

/-! ## Characterization of one value-append -/

theorem indexUpdated_name (col : Column) (v : String) (s : Nat) :
    (indexUpdated col v s).name = col.name := by
  cases hk : col.kind with
  | int => cases hp : parseI32 v <;> cases hi : col.index <;> simp [indexUpdated, hk, hp, hi]
  | float => simp [indexUpdated, hk]
  | str => cases hi : col.index <;> simp [indexUpdated, hk, hi]

theorem indexUpdated_kind (col : Column) (v : String) (s : Nat) :
    (indexUpdated col v s).kind = col.kind := by
  cases hk : col.kind with
  | int => cases hp : parseI32 v <;> cases hi : col.index <;> simp [indexUpdated, hk, hp, hi]
  | float => simp [indexUpdated, hk]
  | str => cases hi : col.index <;> simp [indexUpdated, hk, hi]

theorem applyValue_eq (col : Column) (v : String) (rows : Rows) :
    applyValue col v rows =
      match rowsGet rows col.name with
      | Option.none => some (col, rows)
      | some row =>
        if convertsOkB col.kind v then
          some (indexUpdated col v row.size,
            rowsSet rows col.name (pushConv col.kind v row))
        else Option.none := by
  cases hr : rowsGet rows col.name with
  | none => simp [applyValue, hr]
  | some row =>
    cases hk : col.kind with
    | int =>
      cases hp : parseI32 v with
      | none => simp [applyValue, hr, hk, hp, convertsOkB]
      | some n =>
        cases row <;> cases hi : col.index <;>
          simp [applyValue, hr, hk, hp, hi, convertsOkB, pushConv, indexUpdated]
    | float =>
      cases hp : parseF64 v with
      | none => simp [applyValue, hr, hk, hp, convertsOkB]
      | some x =>
        cases row <;>
          simp [applyValue, hr, hk, hp, convertsOkB, pushConv, indexUpdated]
    | str =>
      cases row <;> cases hi : col.index <;>
        simp [applyValue, hr, hk, hi, convertsOkB, pushConv, indexUpdated]

theorem applyValue_none_iff (col : Column) (v : String) (rows : Rows) :
    applyValue col v rows = Option.none ↔
      ((rowsGet rows col.name).isSome = true ∧ convertsOkB col.kind v = false) := by
  rw [applyValue_eq]
  cases hr : rowsGet rows col.name with
  | none => simp
  | some row =>
    cases hc : convertsOkB col.kind v with
    | true => simp [hc]
    | false => simp [hc]

theorem applyValue_some_facts (col : Column) (v : String) (rows : Rows)
    (col' : Column) (rows' : Rows) (h : applyValue col v rows = some (col', rows')) :
    col'.name = col.name ∧ col'.kind = col.kind ∧
      rows'.map Prod.fst = rows.map Prod.fst ∧
      (∀ c2, c2 ≠ col.name → rowsGet rows' c2 = rowsGet rows c2) := by
  rw [applyValue_eq] at h
  cases hr : rowsGet rows col.name with
  | none =>
    obtain ⟨h1, h2⟩ : col = col' ∧ rows = rows' := by simpa [hr] using h
    subst h1
    subst h2
    exact ⟨rfl, rfl, rfl, fun _ _ => rfl⟩
  | some row =>
    cases hc : convertsOkB col.kind v with
    | false => simp [hr, hc] at h
    | true =>
      obtain ⟨h1, h2⟩ :
          indexUpdated col v row.size = col' ∧
            rowsSet rows col.name (pushConv col.kind v row) = rows' := by
        simpa [hr, hc] using h
      subst h1
      subst h2
      refine ⟨indexUpdated_name col v row.size, indexUpdated_kind col v row.size,
        rowsSet_keys rows col.name (pushConv col.kind v row), ?_⟩
      intro c2 hc2
      exact rowsGet_rowsSet_ne rows (pushConv col.kind v row) hc2

theorem applyValue_good (col : Column) (v : String) (rows : Rows) (row : ColumnData)
    (hr : rowsGet rows col.name = some row) (hc : convertsOkB col.kind v = true) :
    applyValue col v rows =
      some (indexUpdated col v row.size,
        rowsSet rows col.name (pushConv col.kind v row)) := by
  rw [applyValue_eq]
  simp [hr, hc]

/-! ## Characterization of one column lookup-and-mutate -/

theorem insertIntoCols_eq (v c : String) (rows : Rows) (cols : List Column) :
    insertIntoCols v c rows cols =
      match cols.find? (fun x => x.name == c) with
      | Option.none => some Option.none
      | some col =>
        match applyValue col v rows with
        | Option.none => Option.none
        | some (col', rows') => some (some (replaceFirstCol cols c col', rows')) := by
  induction cols with
  | nil => rfl
  | cons col rest ih =>
    by_cases h : col.name = c
    · have hb : (col.name == c) = true := by simp [h]
      simp only [insertIntoCols, h, if_true, List.find?, hb]
      cases ha : applyValue col v rows with
      | none => simp [ha]
      | some pr =>
        obtain ⟨col', rows'⟩ := pr
        simp [ha, replaceFirstCol, h]
    · have hb : (col.name == c) = false := by simp [h]
      simp only [insertIntoCols, h, if_false, List.find?, hb]
      rw [ih]
      cases hf : rest.find? (fun x => x.name == c) with
      | none => simp [hf]
      | some col0 =>
        cases ha : applyValue col0 v rows with
        | none => simp [hf, ha]
        | some pr =>
          obtain ⟨col', rows'⟩ := pr
          simp [hf, ha, replaceFirstCol, h]

theorem insertIntoCols_some_inv (v c : String) (rows : Rows) (cols : List Column)
    (cols' : List Column) (rows' : Rows)
    (h : insertIntoCols v c rows cols = some (some (cols', rows'))) :
    ∃ col col', cols.find? (fun x => x.name == c) = some col ∧
      applyValue col v rows = some (col', rows') ∧
      cols' = replaceFirstCol cols c col' := by
  rw [insertIntoCols_eq] at h
  cases hf : cols.find? (fun x => x.name == c) with
  | none => simp [hf] at h
  | some col =>
    cases ha : applyValue col v rows with
    | none => simp [hf, ha] at h
    | some pr =>
      obtain ⟨c0, r0⟩ := pr
      obtain ⟨h1, h2⟩ : replaceFirstCol cols c c0 = cols' ∧ r0 = rows' := by
        simpa [hf, ha] using h
      subst h2
      exact ⟨col, c0, rfl, ha, h1.symm⟩

/-! ## Schema signature preservation -/

theorem colSig_replaceFirstCol (cols : List Column) (c : String) (col col' : Column)
    (hf : cols.find? (fun x => x.name == c) = some col)
    (hn : col'.name = col.name) (hk : col'.kind = col.kind) :
    colSig (replaceFirstCol cols c col') = colSig cols := by
  induction cols with
  | nil => simp [List.find?] at hf
  | cons x rest ih =>
    by_cases h : x.name = c
    · have hb : (x.name == c) = true := by simp [h]
      simp only [List.find?, hb] at hf
      simp only [Option.some.injEq] at hf
      subst hf
      simp [replaceFirstCol, h, colSig, hn, hk]
    · have hb : (x.name == c) = false := by simp [h]
      simp only [List.find?, hb] at hf
      have hrec := ih hf
      simp only [colSig] at hrec
      simp [replaceFirstCol, h, colSig, hrec]

theorem find?_replaceFirstCol_self (cols : List Column) (c : String) (col col' : Column)
    (hf : cols.find? (fun x => x.name == c) = some col) (hn : col'.name = col.name) :
    (replaceFirstCol cols c col').find? (fun x => x.name == c) = some col' := by
  induction cols with
  | nil => simp [List.find?] at hf
  | cons x rest ih =>
    by_cases h : x.name = c
    · have hb : (x.name == c) = true := by simp [h]
      simp only [List.find?, hb] at hf
      simp only [Option.some.injEq] at hf
      subst hf
      have hb' : (col'.name == c) = true := by simp [hn, h]
      simp [replaceFirstCol, h, List.find?, hb']
    · have hb : (x.name == c) = false := by simp [h]
      simp only [List.find?, hb] at hf
      simp [replaceFirstCol, h, List.find?, hb, ih hf]

theorem findColKind_congr (cs cs' : List Column) (h : colSig cs = colSig cs') (c : String) :
    (cs.find? (fun x => x.name == c)).map Column.kind =
      (cs'.find? (fun x => x.name == c)).map Column.kind := by
  induction cs generalizing cs' with
  | nil =>
    cases cs' with
    | nil => rfl
    | cons y ys => simp [colSig] at h
  | cons x xs ih =>
    cases cs' with
    | nil => simp [colSig] at h
    | cons y ys =>
      simp only [colSig, List.map_cons, List.cons.injEq, Prod.mk.injEq] at h
      obtain ⟨⟨hn, hk⟩, hrest⟩ := h
      by_cases hc : x.name = c
      · have hb1 : (x.name == c) = true := by simp [hc]
        have hb2 : (y.name == c) = true := by simp [← hn, hc]
        simp [List.find?, hb1, hb2, hk]
      · have hb1 : (x.name == c) = false := by simp [hc]
        have hb2 : (y.name == c) = false := by simp [← hn, hc]
        simp only [List.find?, hb1, hb2]
        exact ih ys hrest

theorem findColKind_some_inv (t : Table) (c : String) (k : DataType)
    (h : findColKind t c = some k) :
    ∃ col, t.cols.find? (fun x => x.name == c) = some col ∧
      col.kind = k ∧ col.name = c := by
  unfold findColKind at h
  cases hf : t.cols.find? (fun x => x.name == c) with
  | none => rw [hf] at h; cases h
  | some col =>
    rw [hf] at h
    exact ⟨col, rfl, by simpa using h, by simpa using List.find?_some hf⟩

/-! ## One processed pair: what it preserves -/

theorem insertStep_facts (t : Table) (c v : String) (cols' : List Column)
    (rows' : Rows) (h : insertIntoCols v c t.rows t.cols = some (some (cols', rows'))) :
    (∀ c2, findColKind { t with cols := cols', rows := rows' } c2 = findColKind t c2) ∧
      rows'.map Prod.fst = t.rows.map Prod.fst ∧
      (∀ c2, c2 ≠ c → rowsGet rows' c2 = rowsGet t.rows c2) ∧
      (∀ c2, (rowsGet rows' c2).isSome = (rowsGet t.rows c2).isSome) := by
  obtain ⟨col, col', hf, ha, hrep⟩ := insertIntoCols_some_inv v c t.rows t.cols cols' rows' h
  obtain ⟨hn, hk, hkeys, hother⟩ := applyValue_some_facts col v t.rows col' rows' ha
  have hname : col.name = c := by simpa using List.find?_some hf
  refine ⟨?_, hkeys, ?_, ?_⟩
  · intro c2
    have hsig : colSig cols' = colSig t.cols := by
      rw [hrep]
      exact colSig_replaceFirstCol t.cols c col col' hf hn hk
    exact findColKind_congr cols' t.cols hsig c2
  · intro c2 hc2
    apply hother
    rw [hname]
    exact hc2
  · intro c2
    have hiff : ((rowsGet rows' c2).isSome = true) ↔ ((rowsGet t.rows c2).isSome = true) := by
      rw [rowsGet_isSome_iff, rowsGet_isSome_iff, hkeys]
    cases h1 : (rowsGet rows' c2).isSome with
    | true => exact (hiff.mp h1).symm
    | false =>
      cases h2 : (rowsGet t.rows c2).isSome with
      | true => rw [← h1, hiff.mpr h2]
      | false => rfl

theorem convAt_congr (t t' : Table)
    (hfk : ∀ c2, findColKind t' c2 = findColKind t c2) (c v : String) :
    convAt t' c v = convAt t c v := by
  unfold convAt
  rw [hfk c]

theorem wfAt_congr (t t' : Table)
    (hfk : ∀ c2, findColKind t' c2 = findColKind t c2)
    (hpres : ∀ c2, (rowsGet t'.rows c2).isSome = (rowsGet t.rows c2).isSome)
    (c : String) : wfAt t' c = wfAt t c := by
  unfold wfAt
  rw [hfk c, hpres c]

theorem okAt_congr (t t' : Table)
    (hfk : ∀ c2, findColKind t' c2 = findColKind t c2)
    (hpres : ∀ c2, (rowsGet t'.rows c2).isSome = (rowsGet t.rows c2).isSome)
    (c v : String) : okAt t' c v = okAt t c v := by
  unfold okAt
  rw [hfk c, hpres c]

theorem goodPair_congr (t t' : Table) (L : Nat)
    (hfk : ∀ c2, findColKind t' c2 = findColKind t c2)
    (c v : String) (hrow : rowsGet t'.rows c = rowsGet t.rows c) :
    goodPair t' L c v = goodPair t L c v := by
  unfold goodPair
  rw [hfk c, hrow]

theorem expectedRowAfter_congr (t t' : Table)
    (hfk : ∀ c2, findColKind t' c2 = findColKind t c2)
    (c v : String) (hrow : rowsGet t'.rows c = rowsGet t.rows c) :
    expectedRowAfter t' c v = expectedRowAfter t c v := by
  unfold expectedRowAfter
  rw [hfk c, hrow]

/-! ## The appended store -/

theorem pushConv_size (k : DataType) (v : String) (row : ColumnData)
    (hm : row.matchesKind k = true) (hc : convertsOkB k v = true) :
    (pushConv k v row).size = row.size + 1 := by
  cases k with
  | int =>
    cases row with
    | int xs =>
      obtain ⟨n, hp⟩ := Option.isSome_iff_exists.mp (by simpa [convertsOkB] using hc)
      simp [pushConv, hp, ColumnData.size]
    | float xs => simp [ColumnData.matchesKind] at hm
    | str xs => simp [ColumnData.matchesKind] at hm
  | float =>
    cases row with
    | float xs =>
      obtain ⟨x, hp⟩ := Option.isSome_iff_exists.mp (by simpa [convertsOkB] using hc)
      simp [pushConv, hp, ColumnData.size]
    | int xs => simp [ColumnData.matchesKind] at hm
    | str xs => simp [ColumnData.matchesKind] at hm
  | str =>
    cases row with
    | str xs => simp [pushConv, ColumnData.size]
    | int xs => simp [ColumnData.matchesKind] at hm
    | float xs => simp [ColumnData.matchesKind] at hm

theorem get?_snoc_length {α : Type} (xs : List α) (x : α) :
    (xs ++ [x]).get? xs.length = some x := by
  induction xs with
  | nil => rfl
  | cons y ys ih => simp [ih]

theorem pushConv_get (k : DataType) (v : String) (row : ColumnData) (L : Nat)
    (hm : row.matchesKind k = true) (hc : convertsOkB k v = true)
    (hs : row.size = L) :
    (pushConv k v row).get_from_idx L = some (convertVal k v) := by
  subst hs
  cases k with
  | int =>
    cases row with
    | int xs =>
      obtain ⟨n, hp⟩ := Option.isSome_iff_exists.mp (by simpa [convertsOkB] using hc)
      simp [pushConv, hp, ColumnData.get_from_idx, convertVal, ColumnData.size,
        get?_snoc_length]
    | float xs => simp [ColumnData.matchesKind] at hm
    | str xs => simp [ColumnData.matchesKind] at hm
  | float =>
    cases row with
    | float xs =>
      obtain ⟨x, hp⟩ := Option.isSome_iff_exists.mp (by simpa [convertsOkB] using hc)
      simp [pushConv, hp, ColumnData.get_from_idx, convertVal, ColumnData.size,
        get?_snoc_length]
    | int xs => simp [ColumnData.matchesKind] at hm
    | str xs => simp [ColumnData.matchesKind] at hm
  | str =>
    cases row with
    | str xs =>
      simp [pushConv, ColumnData.get_from_idx, convertVal, ColumnData.size,
        get?_snoc_length]
    | int xs => simp [ColumnData.matchesKind] at hm
    | float xs => simp [ColumnData.matchesKind] at hm

/-! ## The pair loop of insert -/

theorem insertPairs_no_crash (pairs : List (String × String)) (t : Table)
    (h : ∀ p ∈ pairs, convAt t p.1 p.2 = true) :
    insertPairs pairs t ≠ RunResult.crash := by
  induction pairs generalizing t with
  | nil => simp [insertPairs]
  | cons p rest ih =>
    obtain ⟨c, v⟩ := p
    cases hic : insertIntoCols v c t.rows t.cols with
    | none =>
      exfalso
      rw [insertIntoCols_eq] at hic
      cases hf : t.cols.find? (fun x => x.name == c) with
      | none => simp [hf] at hic
      | some col =>
        cases ha : applyValue col v t.rows with
        | some pr => simp [hf, ha] at hic
        | none =>
          have hcv := (applyValue_none_iff col v t.rows).mp ha
          have hconv := h (c, v) (List.mem_cons_self _ _)
          have hfk : findColKind t c = some col.kind := by
            unfold findColKind
            rw [hf]
            rfl
          simp only [convAt, hfk] at hconv
          rw [hconv] at hcv
          simp at hcv
    | some o =>
      cases o with
      | none => simp [insertPairs, hic]
      | some pr =>
        obtain ⟨cols', rows'⟩ := pr
        simp only [insertPairs, hic]
        apply ih
        intro q hq
        obtain ⟨hfk, _, _, _⟩ := insertStep_facts t c v cols' rows' hic
        rw [convAt_congr t { t with cols := cols', rows := rows' } hfk q.1 q.2]
        exact h q (List.mem_cons_of_mem _ hq)

theorem insertPairs_ok (pairs : List (String × String)) (t : Table)
    (h : ∀ p ∈ pairs, okAt t p.1 p.2 = true) :
    ∃ t', insertPairs pairs t = RunResult.ok t' := by
  induction pairs generalizing t with
  | nil => exact ⟨t, rfl⟩
  | cons p rest ih =>
    obtain ⟨c, v⟩ := p
    have hok := h (c, v) (List.mem_cons_self _ _)
    cases hfk : findColKind t c with
    | none => simp [okAt, hfk] at hok
    | some k =>
      obtain ⟨col, hf, hkk, hname⟩ := findColKind_some_inv t c k hfk
      cases hic : insertIntoCols v c t.rows t.cols with
      | none =>
        exfalso
        rw [insertIntoCols_eq] at hic
        cases ha : applyValue col v t.rows with
        | some pr => simp [hf, ha] at hic
        | none =>
          have hcv := (applyValue_none_iff col v t.rows).mp ha
          simp only [okAt, hfk] at hok
          rw [hname] at hcv
          rw [hkk] at hcv
          rw [hcv.1, hcv.2] at hok
          simp at hok
      | some o =>
        cases o with
        | none =>
          exfalso
          rw [insertIntoCols_eq] at hic
          cases ha : applyValue col v t.rows with
          | none => simp [hf, ha] at hic
          | some pr => simp [hf, ha] at hic
        | some pr =>
          obtain ⟨cols', rows'⟩ := pr
          simp only [insertPairs, hic]
          apply ih
          intro q hq
          obtain ⟨hfk2, _, _, hpres⟩ := insertStep_facts t c v cols' rows' hic
          rw [okAt_congr t { t with cols := cols', rows := rows' } hfk2 hpres q.1 q.2]
          exact h q (List.mem_cons_of_mem _ hq)

theorem insertPairs_crash_of (pairs : List (String × String)) (t : Table)
    (hwf : ∀ p ∈ pairs, wfAt t p.1 = true)
    (hbad : ∃ p ∈ pairs, convAt t p.1 p.2 = false) :
    insertPairs pairs t = RunResult.crash := by
  induction pairs generalizing t with
  | nil =>
    obtain ⟨p, hp, _⟩ := hbad
    cases hp
  | cons q rest ih =>
    obtain ⟨c, v⟩ := q
    have hwfh := hwf (c, v) (List.mem_cons_self _ _)
    simp only [wfAt, Bool.and_eq_true] at hwfh
    obtain ⟨k, hfk⟩ := Option.isSome_iff_exists.mp hwfh.1
    obtain ⟨col, hf, hkk, hname⟩ := findColKind_some_inv t c k hfk
    by_cases hcv : convAt t c v = true
    · have hconv : convertsOkB k v = true := by
        simpa only [convAt, hfk] using hcv
      obtain ⟨row, hrow⟩ := Option.isSome_iff_exists.mp hwfh.2
      have ha := applyValue_good col v t.rows row
        (by rw [hname]; exact hrow) (by rw [hkk]; exact hconv)
      have hic : insertIntoCols v c t.rows t.cols =
          some (some (replaceFirstCol t.cols c (indexUpdated col v row.size),
            rowsSet t.rows col.name (pushConv col.kind v row))) := by
        rw [insertIntoCols_eq]
        simp [hf, ha]
      simp only [insertPairs, hic]
      obtain ⟨hfk2, _, _, hpres⟩ := insertStep_facts t c v _ _ hic
      apply ih
      · intro p hp
        rw [wfAt_congr t _ hfk2 hpres p.1]
        exact hwf p (List.mem_cons_of_mem _ hp)
      · obtain ⟨p, hp, hpf⟩ := hbad
        rcases List.mem_cons.mp hp with heq | hmem
        · exfalso
          rw [heq] at hpf
          rw [hcv] at hpf
          cases hpf
        · refine ⟨p, hmem, ?_⟩
          rw [convAt_congr t _ hfk2 p.1 p.2]
          exact hpf
    · have hconvf : convertsOkB k v = false := by
        cases hx : convertsOkB k v with
        | false => rfl
        | true => exact absurd (by simpa only [convAt, hfk] using hx) hcv
      have ha : applyValue col v t.rows = Option.none := by
        apply (applyValue_none_iff col v t.rows).mpr
        constructor
        · rw [hname]
          exact hwfh.2
        · rw [hkk]
          exact hconvf
      have hic : insertIntoCols v c t.rows t.cols = Option.none := by
        rw [insertIntoCols_eq]
        simp [hf, ha]
      simp [insertPairs, hic]

theorem insertPairs_ok_name (pairs : List (String × String)) (t t' : Table)
    (h : insertPairs pairs t = RunResult.ok t') : t'.name = t.name := by
  induction pairs generalizing t with
  | nil =>
    obtain rfl : t = t' := by simpa [insertPairs] using h
    rfl
  | cons p rest ih =>
    obtain ⟨c, v⟩ := p
    cases hic : insertIntoCols v c t.rows t.cols with
    | none => simp [insertPairs, hic] at h
    | some o =>
      cases o with
      | none => simp [insertPairs, hic] at h
      | some pr =>
        obtain ⟨cols', rows'⟩ := pr
        simp only [insertPairs, hic] at h
        exact ih { t with cols := cols', rows := rows' } h

/-- Main effect lemma: a batch of distinct well-behaved pairs succeeds and
appends exactly one converted value to each named column's store, leaving
every other store and the whole schema signature untouched. -/
theorem insertPairs_effect (pairs : List (String × String)) (t : Table) (L : Nat)
    (hnd : (pairs.map Prod.fst).Nodup)
    (hg : ∀ p ∈ pairs, goodPair t L p.1 p.2 = true) :
    ∃ t', insertPairs pairs t = RunResult.ok t' ∧
      t'.rows.map Prod.fst = t.rows.map Prod.fst ∧
      (∀ c2, findColKind t' c2 = findColKind t c2) ∧
      (∀ p ∈ pairs, rowsGet t'.rows p.1 = expectedRowAfter t p.1 p.2) ∧
      (∀ c2, c2 ∉ pairs.map Prod.fst → rowsGet t'.rows c2 = rowsGet t.rows c2) := by
  induction pairs generalizing t with
  | nil =>
    refine ⟨t, rfl, rfl, fun _ => rfl, ?_, fun _ _ => rfl⟩
    intro p hp
    cases hp
  | cons q rest ih =>
    obtain ⟨c, v⟩ := q
    have hgh := hg (c, v) (List.mem_cons_self _ _)
    cases hfk : findColKind t c with
    | none => simp [goodPair, hfk] at hgh
    | some k =>
      cases hrow : rowsGet t.rows c with
      | none => simp [goodPair, hfk, hrow] at hgh
      | some row =>
        simp only [goodPair, hfk, hrow, Bool.and_eq_true, beq_iff_eq] at hgh
        obtain ⟨⟨hm, hc⟩, hsz⟩ := hgh
        obtain ⟨col, hf, hkk, hname⟩ := findColKind_some_inv t c k hfk
        have ha := applyValue_good col v t.rows row
          (by rw [hname]; exact hrow) (by rw [hkk]; exact hc)
        have hic : insertIntoCols v c t.rows t.cols =
            some (some (replaceFirstCol t.cols c (indexUpdated col v row.size),
              rowsSet t.rows col.name (pushConv col.kind v row))) := by
          rw [insertIntoCols_eq]
          simp [hf, ha]
        set t1 : Table := { t with cols := replaceFirstCol t.cols c (indexUpdated col v row.size), rows := rowsSet t.rows col.name (pushConv col.kind v row) } with ht1def
        obtain ⟨hfk2, hkeys2, hother2, hpres2⟩ := insertStep_facts t c v _ _ hic
        simp only [List.map_cons, List.nodup_cons] at hnd
        obtain ⟨hcnotin, hndrest⟩ := hnd
        have ht1c : rowsGet (rowsSet t.rows col.name (pushConv col.kind v row)) c =
            some (pushConv k v row) := by
          rw [hname, hkk]
          exact rowsGet_rowsSet_self t.rows c (pushConv k v row) (by rw [hrow]; rfl)
        have hgrest : ∀ p ∈ rest, goodPair t1 L p.1 p.2 = true := by
          intro p hp
          have hpc : p.1 ≠ c := fun he => hcnotin (List.mem_map.mpr ⟨p, hp, he⟩)
          rw [goodPair_congr t t1 L hfk2 p.1 p.2 (hother2 p.1 hpc)]
          exact hg p (List.mem_cons_of_mem _ hp)
        obtain ⟨t', hok, hkeys', hfk', hpairs', hun'⟩ := ih t1 hndrest hgrest
        refine ⟨t', ?_, ?_, ?_, ?_, ?_⟩
        · simp only [insertPairs, hic]
          exact hok
        · rw [hkeys']
          exact hkeys2
        · intro c2
          rw [hfk' c2, hfk2 c2]
        · intro p hp
          rcases List.mem_cons.mp hp with heq | hmem
          · subst heq
            show rowsGet t'.rows c = expectedRowAfter t c v
            rw [hun' c hcnotin, ht1c]
            simp [expectedRowAfter, hfk, hrow]
          · have hpc : p.1 ≠ c := fun he => hcnotin (List.mem_map.mpr ⟨p, hmem, he⟩)
            rw [hpairs' p hmem,
              expectedRowAfter_congr t _ hfk2 p.1 p.2 (hother2 p.1 hpc)]
        · intro c2 hc2
          have hc2c : c2 ≠ c := fun he => hc2 (by rw [he]; exact List.mem_cons_self _ _)
          have hc2rest : c2 ∉ rest.map Prod.fst :=
            fun hm2 => hc2 (List.mem_cons_of_mem _ hm2)
          rw [hun' c2 hc2rest, hother2 c2 hc2c]

/-! ## Lifting the pair loop to the table list -/

theorem insertGo_ok (pairs : List (String × String)) (n : String) (ts : List Table)
    (t t' : Table) (hf : ts.find? (fun x => x.name == n) = some t)
    (hok : insertPairs pairs t = RunResult.ok t') (hname : t'.name = t.name) :
    ∃ ts', insertGo pairs n ts = some (RunResult.ok ts') ∧
      ts'.find? (fun x => x.name == n) = some t' := by
  induction ts with
  | nil => simp [List.find?] at hf
  | cons t0 rest ih =>
    by_cases h0 : t0.name = n
    · have hb : (t0.name == n) = true := by simp [h0]
      simp only [List.find?, hb, Option.some.injEq] at hf
      subst hf
      refine ⟨t' :: rest, ?_, ?_⟩
      · simp only [insertGo, if_pos h0, hok]
      · have hb' : (t'.name == n) = true := by simp [hname, h0]
        simp [List.find?, hb']
    · have hb : (t0.name == n) = false := by simp [h0]
      simp only [List.find?, hb] at hf
      obtain ⟨ts', hgo, hfind⟩ := ih hf
      refine ⟨t0 :: ts', ?_, ?_⟩
      · simp only [insertGo, if_neg h0, hgo]
      · simp [List.find?, hb, hfind]

theorem insertGo_crash_iff (pairs : List (String × String)) (n : String)
    (ts : List Table) (t : Table) (hf : ts.find? (fun x => x.name == n) = some t) :
    insertGo pairs n ts = some RunResult.crash ↔
      insertPairs pairs t = RunResult.crash := by
  induction ts with
  | nil => simp [List.find?] at hf
  | cons t0 rest ih =>
    by_cases h0 : t0.name = n
    · have hb : (t0.name == n) = true := by simp [h0]
      simp only [List.find?, hb, Option.some.injEq] at hf
      subst hf
      constructor
      · intro hgo
        simp only [insertGo, if_pos h0] at hgo
        cases hi : insertPairs pairs t0 with
        | ok t2 => simp [hi] at hgo
        | err e t2 => simp [hi] at hgo
        | crash => rfl
      · intro hp
        simp [insertGo, if_pos h0, hp]
    · have hb : (t0.name == n) = false := by simp [h0]
      simp only [List.find?, hb] at hf
      have hiff := ih hf
      constructor
      · intro hgo
        simp only [insertGo, if_neg h0] at hgo
        cases hr : insertGo pairs n rest with
        | none => simp [hr] at hgo
        | some r =>
          cases r with
          | ok ts' => simp [hr] at hgo
          | err e ts' => simp [hr] at hgo
          | crash => exact hiff.mp hr
      · intro hp
        simp only [insertGo, if_neg h0]
        rw [hiff.mpr hp]

/-! ## The search loop -/

theorem get?_isSome_iff {α : Type} :
    ∀ (xs : List α) (n : Nat), (xs.get? n).isSome = true ↔ n < xs.length
  | [], n => by simp [List.get?]
  | x :: xs, 0 => by simp [List.get?]
  | x :: xs, n + 1 => by
    rw [show (x :: xs).get? (n + 1) = xs.get? n from rfl, get?_isSome_iff xs n]
    simp [Nat.succ_lt_succ_iff]

theorem get_from_idx_isSome_iff (row : ColumnData) (idx : Nat) :
    (row.get_from_idx idx).isSome = true ↔ idx < row.size := by
  cases row <;>
    simp [ColumnData.get_from_idx, ColumnData.size, ← get?_isSome_iff]

theorem searchList_ok_val (t : Table) (idx : Nat) (cols : List String) :
    ∀ vs, searchList t idx cols = some vs →
      vs = cols.filterMap
        (fun c => (rowsGet t.rows c).bind (fun row => row.get_from_idx idx)) := by
  induction cols with
  | nil =>
    intro vs h
    simp only [searchList, Option.some.injEq] at h
    rw [← h]
    rfl
  | cons c rest ih =>
    intro vs h
    cases hr : rowsGet t.rows c with
    | none =>
      simp only [searchList, hr] at h
      simp [List.filterMap_cons, hr, ih vs h]
    | some row =>
      cases hg : row.get_from_idx idx with
      | none => simp [searchList, hr, hg] at h
      | some x =>
        simp only [searchList, hr, hg] at h
        cases hs : searchList t idx rest with
        | none => simp [hs] at h
        | some vs' =>
          rw [hs] at h
          simp at h
          subst h
          simp [List.filterMap_cons, hr, hg, ih vs' hs]

theorem searchList_total (t : Table) (idx : Nat) (cols : List String)
    (h : ∀ c ∈ cols, inBounds t idx c = true) :
    ∃ vs, searchList t idx cols = some vs := by
  induction cols with
  | nil => exact ⟨[], rfl⟩
  | cons c rest ih =>
    obtain ⟨vs', hvs'⟩ := ih (fun c2 hc2 => h c2 (List.mem_cons_of_mem _ hc2))
    cases hr : rowsGet t.rows c with
    | none => exact ⟨vs', by simp [searchList, hr, hvs']⟩
    | some row =>
      have hb := h c (List.mem_cons_self _ _)
      simp only [inBounds, hr, decide_eq_true_eq] at hb
      obtain ⟨x, hx⟩ := Option.isSome_iff_exists.mp
        ((get_from_idx_isSome_iff row idx).mpr hb)
      exact ⟨x :: vs', by simp [searchList, hr, hx, hvs']⟩

theorem searchList_crash (t : Table) (idx : Nat) (cols : List String)
    (h : ∃ c ∈ cols, inBounds t idx c = false) :
    searchList t idx cols = Option.none := by
  induction cols with
  | nil =>
    obtain ⟨c, hc, _⟩ := h
    cases hc
  | cons c rest ih =>
    obtain ⟨c0, hc0, hb0⟩ := h
    rcases List.mem_cons.mp hc0 with heq | hmem
    · subst heq
      cases hr : rowsGet t.rows c0 with
      | none => simp [inBounds, hr] at hb0
      | some row =>
        simp only [inBounds, hr, decide_eq_false_iff_not] at hb0
        have hnone : row.get_from_idx idx = Option.none := by
          cases hgx : row.get_from_idx idx with
          | none => rfl
          | some x =>
            exact absurd ((get_from_idx_isSome_iff row idx).mp (by rw [hgx]; rfl)) hb0
        simp [searchList, hr, hnone]
    · have hrec := ih ⟨c0, hmem, hb0⟩
      cases hr : rowsGet t.rows c with
      | none => simp [searchList, hr, hrec]
      | some row =>
        cases hg : row.get_from_idx idx with
        | none => simp [searchList, hr, hg]
        | some x => simp [searchList, hr, hg, hrec]

theorem searchList_zip (t' : Table) (L : Nat) (f : String × String → ResultDT) :
    ∀ (cols vals : List String), cols.length = vals.length →
      (∀ p ∈ cols.zip vals, ∃ row, rowsGet t'.rows p.1 = some row ∧
        row.get_from_idx L = some (f p)) →
      searchList t' L cols = some ((cols.zip vals).map f) := by
  intro cols
  induction cols with
  | nil =>
    intro vals _ _
    rfl
  | cons c cs ih =>
    intro vals hlen hp
    cases vals with
    | nil => simp at hlen
    | cons v vs =>
      obtain ⟨row, hrow, hget⟩ := hp (c, v) (by simp)
      have hrec := ih vs (by simpa using hlen)
        (fun p hp2 => hp p (by simp [hp2]))
      simp [searchList, hrow, hget, hrec]

/-! ## Zip bookkeeping -/

theorem zip_take_min {α β : Type} : ∀ (as : List α) (bs : List β),
    (as.take (min as.length bs.length)).zip (bs.take (min as.length bs.length)) =
      as.zip bs := by
  intro as
  induction as with
  | nil => intro bs; simp
  | cons a as' ih =>
    intro bs
    cases bs with
    | nil => simp
    | cons b bs' =>
      simp only [List.length_cons, Nat.succ_min_succ, List.take_succ_cons,
        List.zip_cons_cons, List.cons.injEq]
      exact ⟨trivial, ih bs'⟩

theorem exists_pair_of_mem (cols vals : List String)
    (hlen : cols.length = vals.length) (c : String) (hc : c ∈ cols) :
    ∃ v, (c, v) ∈ cols.zip vals := by
  induction cols generalizing vals with
  | nil => cases hc
  | cons c0 cs ih =>
    cases vals with
    | nil => simp at hlen
    | cons v0 vs =>
      rcases List.mem_cons.mp hc with heq | hmem
      · subst heq
        exact ⟨v0, by simp⟩
      · obtain ⟨v, hv⟩ := ih vs (by simpa using hlen) hmem
        exact ⟨v, by simp [hv]⟩

/-! ## Database-level glue -/

theorem insert_crash_iff_go (db : Database) (cols vals : List String) (tname : String) :
    db.insert cols vals tname = RunResult.crash ↔
      insertGo (cols.zip vals) tname db.tables = some RunResult.crash := by
  unfold Database.insert
  cases hg : insertGo (cols.zip vals) tname db.tables with
  | none => simp
  | some r => cases r <;> simp

theorem insert_ok_inv (db : Database) (cols vals : List String) (tname : String)
    (db' : Database) (h : db.insert cols vals tname = RunResult.ok db') :
    ∃ ts', insertGo (cols.zip vals) tname db.tables = some (RunResult.ok ts') ∧
      db' = ⟨ts'⟩ := by
  unfold Database.insert at h
  cases hg : insertGo (cols.zip vals) tname db.tables with
  | none => simp [hg] at h
  | some r =>
    cases r with
    | ok ts =>
      simp only [hg] at h
      exact ⟨ts, rfl, by cases h; rfl⟩
    | err e ts => simp [hg] at h
    | crash => simp [hg] at h

theorem insert_ok_of_pairs (db : Database) (cols vals : List String) (tname : String)
    (t t' : Table) (ht : db.get_table tname = some t)
    (hp : insertPairs (cols.zip vals) t = RunResult.ok t') :
    ∃ db', db.insert cols vals tname = RunResult.ok db' ∧
      db'.get_table tname = some t' := by
  obtain ⟨ts', hgo, hfind⟩ := insertGo_ok (cols.zip vals) tname db.tables t t' ht hp
    (insertPairs_ok_name (cols.zip vals) t t' hp)
  refine ⟨⟨ts'⟩, ?_, hfind⟩
  simp [Database.insert, hgo]

/-! ## Claim theorems -/

/-- Claim C3: flushing a database's table list and reopening at the same path
reconstructs a table list structurally equal to the one flushed — same names,
schemas, row data, and index contents.  The file handle and binary format are
external to the repository, so flush/open are modelled from the spec (see
`flushContents` / `newTables`); the round trip is carried by a concrete
deterministic encoding. -/
theorem C3_flush_reopen_roundtrip (tables : List Table) :
    newTables (some (flushContents tables)) = some tables := by
  simp [newTables, flushContents, decTables_enc]

/-- Claim C4 counterexample: `Column::new` does not respect `is_indexed`.  An
integer column created with `is_indexed = false` still carries a typed
`IntegerIndex`, and a float column created with `is_indexed = true` carries
`NoIndex`. -/
theorem C4_counterexample :
    ((Column.new "age" DataType.int false).is_indexed = false ∧
      (Column.new "age" DataType.int false).index ≠ Index.none) ∧
    ((Column.new "x" DataType.float true).is_indexed = true ∧
      (Column.new "x" DataType.float true).index = Index.none) := by
  decide

/-- Claim C4 (amended): `Column::new` chooses the index variant from `kind`
alone — `Int` gets an empty integer index, `Str` an empty string index, and
`Float` gets `NoIndex` — while the `is_indexed` flag is stored verbatim and
has no effect on which index the column carries. -/
theorem C4_column_new_index_amended (nm : String) (kd : DataType) (flag : Bool) :
    (Column.new nm kd flag).is_indexed = flag ∧
    (Column.new nm kd flag).index =
      (match kd with
       | DataType.int => Index.int []
       | DataType.str => Index.str []
       | DataType.float => Index.none) ∧
    (Column.new nm kd flag).index = (Column.new nm kd (!flag)).index := by
  cases kd <;> simp [Column.new]

/-- Claim C6: `Index::get` on an integer index fails with `InvalidIndex`
exactly when the key text does not parse as a signed 32-bit integer, and
otherwise returns the stored position for that key (or not-found); on a
string index it always succeeds with the verbatim lookup; on `NoIndex` it
always returns not-found without error.  The embedding is a pure function,
so freedom from side effects is intrinsic to the model. -/
theorem C6_index_get_spec (i : Index) (key : String) :
    (∀ m, i = Index.int m →
      ((Index.get i key = Except.error Error.InvalidIndex) ↔
        parseI32 key = Option.none) ∧
      (∀ n, parseI32 key = some n → Index.get i key = Except.ok (btGetI n m))) ∧
    (∀ m, i = Index.str m → Index.get i key = Except.ok (btGetS key m)) ∧
    (i = Index.none → Index.get i key = Except.ok Option.none) := by
  refine ⟨?_, ?_, ?_⟩
  · intro m him
    subst him
    constructor
    · constructor
      · intro h
        cases hp : parseI32 key with
        | none => rfl
        | some n => simp [Index.get, hp] at h
      · intro hp
        simp [Index.get, hp]
    · intro n hp
      simp [Index.get, hp]
  · intro m him
    subst him
    rfl
  · intro him
    subst him
    rfl

/-- Witness for C6: on the concrete integer index `{5 ↦ 1}`, the non-numeric
key `"abc"` fails with `InvalidIndex` and the key `"5"` returns position 1. -/
theorem C6_index_get_spec_witness :
    Index.get (Index.int [(5, 1)]) "abc" = Except.error Error.InvalidIndex ∧
      Index.get (Index.int [(5, 1)]) "5" = Except.ok (some 1) :=
  ⟨((C6_index_get_spec (Index.int [(5, 1)]) "abc").1 [(5, 1)] rfl).1.mpr (by decide),
   ((C6_index_get_spec (Index.int [(5, 1)]) "5").1 [(5, 1)] rfl).2 5 (by decide)⟩

/-- Claim C7: `search_idx` fails with `InvalidTable` exactly when no table of
that name exists (and no other error is possible); on success it returns, in
requested order, the value at the position of each requested column present
in the rows map, silently skipping absent names with no error and no
placeholder. -/
theorem C7_search_idx_errors (db : Database) (s_col : List String) (idx : Nat)
    (tname : String) :
    (db.search_idx s_col idx tname = some (Except.error Error.InvalidTable) ↔
      db.get_table tname = Option.none) ∧
    (∀ e, db.search_idx s_col idx tname = some (Except.error e) →
      e = Error.InvalidTable) ∧
    (∀ t, db.get_table tname = some t →
      ∀ vs, db.search_idx s_col idx tname = some (Except.ok vs) →
        vs = s_col.filterMap
          (fun c => (rowsGet t.rows c).bind (fun row => row.get_from_idx idx))) := by
  refine ⟨⟨?_, ?_⟩, ?_, ?_⟩
  · intro h
    cases ht : db.get_table tname with
    | none => rfl
    | some t =>
      simp only [Database.search_idx, ht] at h
      cases hs : searchList t idx s_col with
      | none => simp [hs] at h
      | some vs => simp [hs] at h
  · intro h
    simp [Database.search_idx, h]
  · intro e h
    cases ht : db.get_table tname with
    | none =>
      simp only [Database.search_idx, ht, Option.some.injEq] at h
      cases h
      rfl
    | some t =>
      simp only [Database.search_idx, ht] at h
      cases hs : searchList t idx s_col with
      | none => simp [hs] at h
      | some vs => simp [hs] at h
  · intro t ht vs h
    simp only [Database.search_idx, ht] at h
    cases hs : searchList t idx s_col with
    | none => simp [hs] at h
    | some vs0 =>
      rw [hs] at h
      simp at h
      rw [← h]
      exact searchList_ok_val t idx s_col vs0 hs

/-- Witness for C7: on the populated `people` database, requesting
`["name", "zzz", "age"]` at position 0 skips the absent `"zzz"` and returns
the present columns' values in order, matching the filter-map specification. -/
theorem C7_search_idx_errors_witness :
    [ResultDT.str "Tommy", ResultDT.int 16] =
      (["name", "zzz", "age"].filterMap
        (fun c => (rowsGet peopleFullT.rows c).bind
          (fun row => row.get_from_idx 0))) :=
  (C7_search_idx_errors peopleFull ["name", "zzz", "age"] 0 "people").2.2
    peopleFullT (by decide) [ResultDT.str "Tommy", ResultDT.int 16] (by decide)

/-- Claim C10: for an existing table, `search_idx` is total exactly under the
precondition that the position is in bounds for every requested present
column: then it returns a successful result, whereas if some requested
present column is too short, the unguarded indexing in
`ColumnData::get_from_idx` panics (modelled by `none`) instead of returning
an error. -/
theorem C10_search_idx_bounds (db : Database) (s_col : List String) (idx : Nat)
    (tname : String) (t : Table) (ht : db.get_table tname = some t) :
    ((∀ c ∈ s_col, inBounds t idx c = true) →
      ∃ vs, db.search_idx s_col idx tname = some (Except.ok vs)) ∧
    ((∃ c ∈ s_col, inBounds t idx c = false) →
      db.search_idx s_col idx tname = Option.none) := by
  constructor
  · intro h
    obtain ⟨vs, hvs⟩ := searchList_total t idx s_col h
    exact ⟨vs, by simp [Database.search_idx, ht, hvs]⟩
  · intro h
    simp [Database.search_idx, ht, searchList_crash t idx s_col h]

/-- Witness for C10: position 0 is in bounds for both populated columns of
`people` and search succeeds; position 1 is out of bounds for `"name"`
(length 1) and the search panics. -/
theorem C10_search_idx_bounds_witness :
    (∃ vs, peopleFull.search_idx ["name", "age"] 0 "people" =
      some (Except.ok vs)) ∧
    peopleFull.search_idx ["name"] 1 "people" = Option.none :=
  ⟨(C10_search_idx_bounds peopleFull ["name", "age"] 0 "people" peopleFullT
      (by decide)).1 (by decide),
   (C10_search_idx_bounds peopleFull ["name"] 1 "people" peopleFullT
      (by decide)).2 ⟨"name", by decide, by decide⟩⟩

/-- Claim C8: during `Database::insert` into an existing table, a supplied
value that fails to convert to its column's declared type makes the
operation panic rather than return a typed error (assuming each processed
column exists with a present store, as `Table::new` guarantees); conversely,
when every processed value converts to its column's declared type, the
conversion step never panics. -/
theorem C8_insert_conversion_crash (db : Database) (cols vals : List String)
    (tname : String) (t : Table) (ht : db.get_table tname = some t) :
    ((∀ p ∈ cols.zip vals, convAt t p.1 p.2 = true) →
      db.insert cols vals tname ≠ RunResult.crash) ∧
    ((∀ p ∈ cols.zip vals, wfAt t p.1 = true) →
      (∃ p ∈ cols.zip vals, convAt t p.1 p.2 = false) →
      db.insert cols vals tname = RunResult.crash) := by
  have hfind : db.tables.find? (fun x => x.name == tname) = some t := ht
  constructor
  · intro h hcrash
    exact insertPairs_no_crash (cols.zip vals) t h
      ((insertGo_crash_iff (cols.zip vals) tname db.tables t hfind).mp
        ((insert_crash_iff_go db cols vals tname).mp hcrash))
  · intro hwf hbad
    exact (insert_crash_iff_go db cols vals tname).mpr
      ((insertGo_crash_iff (cols.zip vals) tname db.tables t hfind).mpr
        (insertPairs_crash_of (cols.zip vals) t hwf hbad))

/-- Witness for C8: inserting the well-typed value `"16"` into `age` does
not panic, while the non-numeric value `"oops"` for the integer column `age`
panics. -/
theorem C8_insert_conversion_crash_witness :
    peopleDb.insert ["age"] ["16"] "people" ≠ RunResult.crash ∧
      peopleDb.insert ["age"] ["oops"] "people" = RunResult.crash :=
  ⟨(C8_insert_conversion_crash peopleDb ["age"] ["16"] "people" peopleTable
      (by decide)).1 (by decide),
   (C8_insert_conversion_crash peopleDb ["age"] ["oops"] "people" peopleTable
      (by decide)).2 (by decide) ⟨("age", "oops"), by decide, by decide⟩⟩

/-- Claim C5: for a column carrying a typed integer or string index, a
processed append also inserts the converted value into the index, keyed to
the row position equal to the store's length before the append (0-based);
looking that key up afterwards returns exactly this newest position whether
or not the key was present before (last-write-wins), and every other key's
binding is unchanged — so distinct keys keep their own insertion
positions. -/
theorem C5_index_insert_position (t : Table) (c v : String) (col : Column)
    (row : ColumnData) (hf : t.cols.find? (fun x => x.name == c) = some col)
    (hr : rowsGet t.rows c = some row) :
    (∀ m n, col.kind = DataType.int → col.index = Index.int m →
      parseI32 v = some n →
      ∃ t', insertPairs [(c, v)] t = RunResult.ok t' ∧
        (t'.cols.find? (fun x => x.name == c)).map Column.index =
          some (Index.int (btInsertI n row.size m)) ∧
        Index.get (Index.int (btInsertI n row.size m)) v =
          Except.ok (some row.size) ∧
        (∀ k2, k2 ≠ n → btGetI k2 (btInsertI n row.size m) = btGetI k2 m)) ∧
    (∀ m, col.kind = DataType.str → col.index = Index.str m →
      ∃ t', insertPairs [(c, v)] t = RunResult.ok t' ∧
        (t'.cols.find? (fun x => x.name == c)).map Column.index =
          some (Index.str (btInsertS v row.size m)) ∧
        Index.get (Index.str (btInsertS v row.size m)) v =
          Except.ok (some row.size) ∧
        (∀ k2, k2 ≠ v → btGetS k2 (btInsertS v row.size m) = btGetS k2 m)) := by
  have hname : col.name = c := by simpa using List.find?_some hf
  constructor
  · intro m n hkind hidx hp
    have hconv : convertsOkB col.kind v = true := by simp [convertsOkB, hkind, hp]
    have ha := applyValue_good col v t.rows row (by rw [hname]; exact hr) hconv
    have hic : insertIntoCols v c t.rows t.cols =
        some (some (replaceFirstCol t.cols c (indexUpdated col v row.size),
          rowsSet t.rows col.name (pushConv col.kind v row))) := by
      rw [insertIntoCols_eq]
      simp [hf, ha]
    have hstep : insertPairs [(c, v)] t = RunResult.ok { t with cols := replaceFirstCol t.cols c (indexUpdated col v row.size), rows := rowsSet t.rows col.name (pushConv col.kind v row) } := by
      simp only [insertPairs, hic]
    have hcol' : indexUpdated col v row.size =
        { col with index := Index.int (btInsertI n row.size m) } := by
      simp [indexUpdated, hkind, hp, hidx]
    refine ⟨_, hstep, ?_, ?_, ?_⟩
    · have hfind2 := find?_replaceFirstCol_self t.cols c col
        (indexUpdated col v row.size) hf (indexUpdated_name col v row.size)
      rw [show ({ t with cols := replaceFirstCol t.cols c (indexUpdated col v row.size), rows := rowsSet t.rows col.name (pushConv col.kind v row) } : Table).cols = replaceFirstCol t.cols c (indexUpdated col v row.size) from rfl, hfind2, hcol']
      rfl
    · simp [Index.get, hp, btGetI_insert_self]
    · intro k2 hk2
      exact btGetI_insert_ne k2 n row.size m hk2
  · intro m hkind hidx
    have hconv : convertsOkB col.kind v = true := by simp [convertsOkB, hkind]
    have ha := applyValue_good col v t.rows row (by rw [hname]; exact hr) hconv
    have hic : insertIntoCols v c t.rows t.cols =
        some (some (replaceFirstCol t.cols c (indexUpdated col v row.size),
          rowsSet t.rows col.name (pushConv col.kind v row))) := by
      rw [insertIntoCols_eq]
      simp [hf, ha]
    have hstep : insertPairs [(c, v)] t = RunResult.ok { t with cols := replaceFirstCol t.cols c (indexUpdated col v row.size), rows := rowsSet t.rows col.name (pushConv col.kind v row) } := by
      simp only [insertPairs, hic]
    have hcol' : indexUpdated col v row.size =
        { col with index := Index.str (btInsertS v row.size m) } := by
      simp [indexUpdated, hkind, hidx]
    refine ⟨_, hstep, ?_, ?_, ?_⟩
    · have hfind2 := find?_replaceFirstCol_self t.cols c col
        (indexUpdated col v row.size) hf (indexUpdated_name col v row.size)
      rw [show ({ t with cols := replaceFirstCol t.cols c (indexUpdated col v row.size), rows := rowsSet t.rows col.name (pushConv col.kind v row) } : Table).cols = replaceFirstCol t.cols c (indexUpdated col v row.size) from rfl, hfind2, hcol']
      rfl
    · simp [Index.get, btGetS_insert_self]
    · intro k2 hk2
      exact btGetS_insert_ne k2 v row.size m hk2

/-- Witness for C5: appending `"Tommy"` to the indexed string column `name`
of the fresh `people` table records position 0 in the string index, and the
lookup of `"Tommy"` returns it. -/
theorem C5_index_insert_position_witness :
    ∃ t', insertPairs [("name", "Tommy")] peopleTable = RunResult.ok t' ∧
      (t'.cols.find? (fun x => x.name == "name")).map Column.index =
        some (Index.str (btInsertS "Tommy" (ColumnData.str []).size [])) ∧
      Index.get (Index.str (btInsertS "Tommy" (ColumnData.str []).size []))
        "Tommy" = Except.ok (some (ColumnData.str []).size) ∧
      (∀ k2, k2 ≠ "Tommy" →
        btGetS k2 (btInsertS "Tommy" (ColumnData.str []).size []) =
          btGetS k2 []) :=
  (C5_index_insert_position peopleTable "name" "Tommy"
      (Column.new "name" DataType.str true) (ColumnData.str [])
      (by decide) (by decide)).2 [] rfl rfl

/-- Claim C9 counterexample: the unconditional success clause fails.  The
table `people` exists and the single processed column `age` exists, yet
`insert(["age"], ["old", "extra"])` panics on the non-numeric value instead
of returning success. -/
theorem C9_counterexample :
    peopleDb.insert ["age"] ["old", "extra"] "people" = RunResult.crash := by
  decide

/-- Claim C9 (amended): `insert` pairs `cols` with `values` by zipping, so
only the first `min(|cols|, |values|)` pairs are processed and surplus names
or values are silently ignored with no length-mismatch error; the call
returns success provided the table exists, each processed column name
exists, and each processed value converts to its column's declared type
whenever that column's store is present. -/
theorem C9_zip_truncation_amended (db : Database) (cols vals : List String)
    (tname : String) (t : Table) :
    (db.insert cols vals tname =
      db.insert (cols.take (min cols.length vals.length))
        (vals.take (min cols.length vals.length)) tname) ∧
    (db.get_table tname = some t →
      (∀ p ∈ cols.zip vals, okAt t p.1 p.2 = true) →
      ∃ db', db.insert cols vals tname = RunResult.ok db') := by
  constructor
  · unfold Database.insert
    rw [zip_take_min]
  · intro ht hok
    obtain ⟨t', hp⟩ := insertPairs_ok (cols.zip vals) t hok
    obtain ⟨db', hins, _⟩ := insert_ok_of_pairs db cols vals tname t t' ht hp
    exact ⟨db', hins⟩

/-- Witness for C9: inserting with one column name but two values succeeds,
silently ignoring the surplus value `"extra"`. -/
theorem C9_zip_truncation_amended_witness :
    ∃ db', peopleDb.insert ["name"] ["Tommy", "extra"] "people" =
      RunResult.ok db' :=
  (C9_zip_truncation_amended peopleDb ["name"] ["Tommy", "extra"] "people"
    peopleTable).2 (by decide) (by decide)

/-- Claim C2: a successful insert of text values for distinct existing
columns — whose stores all sit at length `L` with variants matching their
declared kinds, and whose values convert — followed by `search_idx` on the
same columns at position `L` returns exactly the inserted values, converted
to each column's declared type, in the requested column order. -/
theorem C2_insert_search_roundtrip (db : Database) (cols vals : List String)
    (tname : String) (t : Table) (L : Nat) (db' : Database)
    (ht : db.get_table tname = some t)
    (hlen : cols.length = vals.length)
    (hnd : cols.Nodup)
    (hgood : ∀ p ∈ cols.zip vals, goodPair t L p.1 p.2 = true)
    (hins : db.insert cols vals tname = RunResult.ok db') :
    db'.search_idx cols L tname =
      some (Except.ok ((cols.zip vals).map
        (fun p => convertVal (kindAt t p.1) p.2))) := by
  have hfst : (cols.zip vals).map Prod.fst = cols :=
    List.map_fst_zip cols vals (le_of_eq hlen)
  have hndp : ((cols.zip vals).map Prod.fst).Nodup := by
    rw [hfst]
    exact hnd
  obtain ⟨t', hpok, hkeys, hfk, hpairs, hun⟩ :=
    insertPairs_effect (cols.zip vals) t L hndp hgood
  obtain ⟨db'', hins2, hget2⟩ := insert_ok_of_pairs db cols vals tname t t' ht hpok
  rw [hins] at hins2
  injection hins2 with heq
  subst heq
  simp only [Database.search_idx, hget2]
  have hzip := searchList_zip t' L (fun p => convertVal (kindAt t p.1) p.2)
    cols vals hlen ?hp
  · rw [hzip]
    rfl
  case hp =>
    intro p hpmem
    have hexp := hpairs p hpmem
    have hg := hgood p hpmem
    cases hfk0 : findColKind t p.1 with
    | none => simp [goodPair, hfk0] at hg
    | some k =>
      cases hrow0 : rowsGet t.rows p.1 with
      | none => simp [goodPair, hfk0, hrow0] at hg
      | some row =>
        simp only [goodPair, hfk0, hrow0, Bool.and_eq_true, beq_iff_eq] at hg
        obtain ⟨⟨hm, hcv⟩, hsz⟩ := hg
        refine ⟨pushConv k p.2 row, ?_, ?_⟩
        · rw [hexp]
          simp [expectedRowAfter, hfk0, hrow0]
        · rw [pushConv_get k p.2 row L hm hcv hsz]
          simp [kindAt, hfk0]

/-- Witness for C2, the scenario of the crate's own test: inserting
`("name" -> "Tommy", "age" -> "16")` into the fresh `people` table and
searching those columns at position 0 returns `[Str "Tommy", Int 16]`. -/
theorem C2_insert_search_roundtrip_witness :
    peopleFull.search_idx ["name", "age"] 0 "people" =
      some (Except.ok [ResultDT.str "Tommy", ResultDT.int 16]) :=
  C2_insert_search_roundtrip peopleDb ["name", "age"] ["Tommy", "16"]
    "people" peopleTable 0 peopleFull (by decide) (by decide) (by decide)
    (by decide) (by decide)

/-- Claim C1 counterexample: `insert` is neither alignment-preserving nor
atomic.  With batch `["name", "bogus"]` the call fails with `InvalidColumn`
only after appending to `name`, returning a mutated state in which `name`
holds one value while `age` holds none. -/
theorem C1_counterexample :
    peopleDb.insert ["name", "bogus"] ["Tommy", "16"] "people" =
      RunResult.err Error.InvalidColumn peopleAfterPartial ∧
    peopleAfterPartial ≠ peopleDb ∧
    ((peopleAfterPartial.get_table "people").map (fun t =>
      ((rowsGet t.rows "name").map ColumnData.size,
        (rowsGet t.rows "age").map ColumnData.size))) =
      some (some 1, some 0) := by
  decide

/-- Claim C1 (amended): `insert` is not atomic — a call that fails with
`InvalidColumn` partway keeps the appends already made, which can leave the
table's stores misaligned (see the counterexample).  Alignment is preserved
when the call succeeds and names every column of the table exactly once with
convertible values over matching stores of common length `L`: every
ColumnStore then ends at length `L + 1`. -/
theorem C1_insert_alignment_amended (db : Database) (cols vals : List String)
    (tname : String) (t : Table) (L : Nat) (db' : Database)
    (ht : db.get_table tname = some t)
    (hlen : cols.length = vals.length)
    (hnd : cols.Nodup)
    (hgood : ∀ p ∈ cols.zip vals, goodPair t L p.1 p.2 = true)
    (hkeysnd : (t.rows.map Prod.fst).Nodup)
    (hcover : ∀ k ∈ t.rows.map Prod.fst, k ∈ cols)
    (hins : db.insert cols vals tname = RunResult.ok db') :
    ∃ t', db'.get_table tname = some t' ∧ ∀ p ∈ t'.rows, p.2.size = L + 1 := by
  have hfst : (cols.zip vals).map Prod.fst = cols :=
    List.map_fst_zip cols vals (le_of_eq hlen)
  have hndp : ((cols.zip vals).map Prod.fst).Nodup := by
    rw [hfst]
    exact hnd
  obtain ⟨t', hpok, hkeys, hfk, hpairs, hun⟩ :=
    insertPairs_effect (cols.zip vals) t L hndp hgood
  obtain ⟨db'', hins2, hget2⟩ := insert_ok_of_pairs db cols vals tname t t' ht hpok
  rw [hins] at hins2
  injection hins2 with heq
  subst heq
  refine ⟨t', hget2, ?_⟩
  intro p hp
  obtain ⟨k0, r⟩ := p
  have hk0t : k0 ∈ t.rows.map Prod.fst := by
    rw [← hkeys]
    exact List.mem_map.mpr ⟨(k0, r), hp, rfl⟩
  obtain ⟨v, hvmem⟩ := exists_pair_of_mem cols vals hlen k0 (hcover k0 hk0t)
  have hndk : (t'.rows.map Prod.fst).Nodup := by
    rw [hkeys]
    exact hkeysnd
  have hget := rowsGet_of_mem_nodup t'.rows k0 r hndk hp
  have hexp := hpairs (k0, v) hvmem
  rw [hget] at hexp
  have hg := hgood (k0, v) hvmem
  cases hfk0 : findColKind t k0 with
  | none => simp [goodPair, hfk0] at hg
  | some k =>
    cases hrow0 : rowsGet t.rows k0 with
    | none => simp [goodPair, hfk0, hrow0] at hg
    | some row =>
      simp only [goodPair, hfk0, hrow0, Bool.and_eq_true, beq_iff_eq] at hg
      obtain ⟨⟨hm, hcv⟩, hsz⟩ := hg
      have hexp2 : expectedRowAfter t k0 v = some (pushConv k v row) := by
        simp [expectedRowAfter, hfk0, hrow0]
      rw [hexp2] at hexp
      injection hexp with hr
      show r.size = L + 1
      rw [hr, pushConv_size k v row hm hcv, hsz]

/-- Witness for C1 (amended): the test-scenario insert covers both columns
of the fresh `people` table, and afterwards both stores have length 1. -/
theorem C1_insert_alignment_amended_witness :
    ∃ t', peopleFull.get_table "people" = some t' ∧
      ∀ p ∈ t'.rows, p.2.size = 0 + 1 :=
  C1_insert_alignment_amended peopleDb ["name", "age"] ["Tommy", "16"]
    "people" peopleTable 0 peopleFull (by decide) (by decide) (by decide)
    (by decide) (by decide) (by decide) (by decide)

end Db
